import Mathlib

/-!
Verification of the Rule Repository subsystem of `src/index.ts`
(mcp-markdown-rules): the directory Scanner (`getProjectRules`), the key
derivation, the TTL cache (`getCachedProjectRules` with its
`rulesCache`/`lastScanTime` state and the watcher invalidation
`rulesCache = {}; lastScanTime = 0`), and the query surface
(`getAvailableRuleTypes` and the `get_project_rules` tool handler).

The filesystem is abstracted as data: a root flag, a list of directory
entries, each with an optional listing (`none` models `readdirSync`
throwing), each file with optional content (`none` models `readFileSync`
throwing). JS `Record<string, string>` objects are modelled as association
lists in insertion order, with assignment to an existing key updating in
place (JS string-keyed property order).
-/

set_option autoImplicit false

namespace MCP

/-- A JS `Record<string, string>` in `Object.keys` (insertion) order. -/
abbrev Record := List (String × String)

/-- JS `rules[key] = content`: update in place if the key exists (property
order is preserved), otherwise append. -/
def recordSet (r : Record) (k v : String) : Record :=
  if r.any (fun p => p.1 == k) then
    r.map (fun p => if p.1 = k then (k, v) else p)
  else r ++ [(k, v)]

/-- JS `rules[key]` property access, as an `Option`. -/
def recordLookup (r : Record) (k : String) : Option String :=
  match r with
  | [] => none
  | (k', v) :: rest => if k' = k then some v else recordLookup rest k

/-- Remove the first occurrence of `pat` from a character list. -/
def removeFirstAux (pat : List Char) : List Char → List Char
  | [] => []
  | c :: rest =>
    if pat.isPrefixOf (c :: rest) then (c :: rest).drop pat.length
    else c :: removeFirstAux pat rest

/-- JS `s.replace(pat, '')` with a string pattern: removes only the first
occurrence of `pat`. -/
def removeFirst (s pat : String) : String := ⟨removeFirstAux pat.data s.data⟩

/-- JS `s.endsWith(pat)`. -/
def endsWith (s pat : String) : Bool := pat.data.isSuffixOf s.data

/-- JS `s.toUpperCase()`: uppercase character by character (the names
involved are ASCII, where the two notions agree). Defined over `data` by
structural recursion so that concrete scans evaluate in the kernel. -/
def toUpperStr (s : String) : String := ⟨s.data.map Char.toUpper⟩

/-- Key derivation of `src/index.ts` lines 129-132, after
`toolName = entry.name.toUpperCase()`:
`file === 'README.md' ? toolName + '-OVERVIEW'
                      : toolName + '-' + file.replace('.md','').toUpperCase()`. -/
def ruleKey (toolName file : String) : String :=
  if file = "README.md" then toolName ++ "-OVERVIEW"
  else toolName ++ "-" ++ toUpperStr (removeFirst file ".md")

/-- Key derivation as a function of the raw group directory name. -/
def codeDeriveKey (group file : String) : String :=
  ruleKey (toUpperStr group) file

/-- One file within a group directory; `content = none` models
`readFileSync` throwing for that file. -/
structure FileEntry where
  name : String
  content : Option String
deriving DecidableEq

/-- One entry of the root directory; `listing = none` models
`readdirSync(toolDir)` throwing for that group. -/
structure DirEntry where
  name : String
  isDirectory : Bool
  listing : Option (List FileEntry)
deriving DecidableEq

/-- The abstract filesystem seen by one scan. -/
structure FS where
  rootExists : Bool
  entries : List DirEntry
deriving DecidableEq

/-- The inner `toolFiles.forEach` of `getProjectRules`: each `.md` file is
read and stored under its derived key; a throwing `readFileSync` aborts the
rest of this group's iteration (the exception lands in the per-group
`catch`), keeping the entries accumulated so far. -/
def scanFilesAcc (toolName : String) : List FileEntry → Record → Record
  | [], rules => rules
  | f :: rest, rules =>
    if endsWith f.name ".md" then
      match f.content with
      | some content =>
          scanFilesAcc toolName rest (recordSet rules (ruleKey toolName f.name) content)
      | none => rules
    else scanFilesAcc toolName rest rules

/-- One iteration of the outer `entries.forEach`: non-directories are
ignored; a failing `readdirSync(toolDir)` is caught, leaving the
accumulator untouched. -/
def processEntry (rules : Record) (e : DirEntry) : Record :=
  if e.isDirectory then
    match e.listing with
    | some files => scanFilesAcc (toUpperStr e.name) files rules
    | none => rules
  else rules

/-- The outer `entries.forEach` over the shared `rules` object. -/
def scanEntries : List DirEntry → Record → Record
  | [], rules => rules
  | e :: rest, rules => scanEntries rest (processEntry rules e)

/-- `getProjectRules` (src/index.ts lines 99-147): returns `{}` when the
root is missing, otherwise folds every directory entry into the shared
`rules` record. Never throws. -/
def getProjectRules (fs : FS) : Record :=
  if fs.rootExists then scanEntries fs.entries [] else []

/-- The module-level cache state: `rulesCache` and `lastScanTime`. -/
structure CacheState where
  rulesCache : Record
  lastScanTime : Nat
deriving DecidableEq

/-- The rescan condition of `getCachedProjectRules` (lines 154-158):
`!rulesCache || Object.keys(rulesCache).length === 0 || now - lastScanTime > 5000`.
`rulesCache` is always an object, so `!rulesCache` is always false. JS
subtraction can be negative, in which case `> 5000` is false; Nat truncated
subtraction yields 0 there, with the same comparison result. -/
def shouldRescan (st : CacheState) (now : Nat) : Bool :=
  st.rulesCache.length == 0 || decide (now - st.lastScanTime > 5000)

/-- Result of one `getCachedProjectRules` call: the returned record, the
cache state afterwards, and whether `getProjectRules` was invoked. -/
structure ReadResult where
  rules : Record
  state : CacheState
  didScan : Bool
deriving DecidableEq

/-- `getCachedProjectRules` (lines 150-166): rescan when the condition
holds, installing the scan result unconditionally; otherwise serve the
held record unchanged. -/
def getCachedProjectRules (st : CacheState) (now : Nat) (fs : FS) : ReadResult :=
  if shouldRescan st now then
    let fresh := getProjectRules fs
    ⟨fresh, ⟨fresh, now⟩, true⟩
  else ⟨st.rulesCache, st, false⟩

/-- The watcher callback's invalidation (lines 189-190):
`rulesCache = {}; lastScanTime = 0`, independent of the prior state. -/
def invalidate (_st : CacheState) : CacheState := ⟨[], 0⟩

/-- `n` consecutive invalidations with no intervening read. -/
def invalidateN : Nat → CacheState → CacheState
  | 0, st => st
  | n + 1, st => invalidate (invalidateN n st)

/-- `getAvailableRuleTypes` (lines 219-222): `Object.keys(rules).concat(['ALL'])`. -/
def getAvailableRuleTypes (rules : Record) : List String :=
  rules.map Prod.fst ++ ["ALL"]

/-- The only error the `get_project_rules` handler raises for a present
`rule_type` argument: `Unknown rule type: ...`. -/
inductive ToolError where
  | unknownKey (key : String)
deriving DecidableEq

/-- One `## key\n\n{value}` section of the `ALL` output. -/
def sectionText (p : String × String) : String := "## " ++ p.1 ++ "\n\n" ++ p.2

/-- The fixed delimiter joining `ALL` sections. -/
def allDelimiter : String := "\n\n---\n\n"

/-- The `get_project_rules` branch of the tool handler (lines 261-283) for
a given rules record and `rule_type`: `ALL` concatenates every entry as a
labeled section; otherwise the entry is returned when `rules[ruleType]` is
truthy (present and non-empty), and `Unknown rule type` is thrown when it
is absent or the empty string. -/
def getRule (rules : Record) (ruleType : String) : Except ToolError String :=
  if ruleType = "ALL" then
    .ok (String.intercalate allDelimiter (rules.map sectionText))
  else
    match recordLookup rules ruleType with
    | some content =>
        if content = "" then .error (.unknownKey ruleType) else .ok content
    | none => .error (.unknownKey ruleType)

/-- The members of `Object.prototype` visible on a plain object literal
such as the rules cache: reading any of these property names on an object
with no own property of that name yields an inherited function (or, for
`__proto__`, the prototype object) — a truthy, non-string value. -/
def objectProtoMembers : List String :=
  ["constructor", "hasOwnProperty", "isPrototypeOf", "propertyIsEnumerable",
   "toLocaleString", "toString", "valueOf", "__proto__", "__defineGetter__",
   "__defineSetter__", "__lookupGetter__", "__lookupSetter__"]

/-- The `text` payload the handler produces: a document string, or — when
an absent `rule_type` names an `Object.prototype` member — the inherited
non-string value leaked into the payload. -/
inductive JSText where
  | text (s : String)
  | leakedProto (member : String)
deriving DecidableEq

/-- The `get_project_rules` handler with JS prototype-chain property
access modelled: `rules[ruleType]` finds an own property first (truthy iff
non-empty, even the empty string shadows the chain), else an inherited
`Object.prototype` member (always truthy, so the handler returns it
instead of throwing), else `undefined` (falsy, so the handler throws
`Unknown rule type`). Restricted to own properties it agrees with
`getRule`. -/
def getRuleJS (rules : Record) (ruleType : String) : Except ToolError JSText :=
  if ruleType = "ALL" then
    .ok (.text (String.intercalate allDelimiter (rules.map sectionText)))
  else
    match recordLookup rules ruleType with
    | some content =>
        if content = "" then .error (.unknownKey ruleType) else .ok (.text content)
    | none =>
        if objectProtoMembers.contains ruleType then .ok (.leakedProto ruleType)
        else .error (.unknownKey ruleType)

/-- One character of the key alphabet `[A-Z0-9_-]`. -/
def isKeyChar (c : Char) : Bool :=
  decide (('A' ≤ c ∧ c ≤ 'Z') ∨ ('0' ≤ c ∧ c ≤ '9') ∨ c = '_' ∨ c = '-')

/-- The spec's key invariant: a non-empty string matching `[A-Z0-9_-]+`. -/
def matchesKeyRegex (s : String) : Bool :=
  !s.data.isEmpty && s.data.all isKeyChar

/-- A file whose derived key suffix stays inside the key alphabet. -/
def cleanFile (f : FileEntry) : Bool :=
  (toUpperStr (removeFirst f.name ".md")).data.all isKeyChar

/-- A directory entry whose uppercased name and accepted `.md` files stay
inside the key alphabet; non-directory entries and ignored non-`.md` files
are unconstrained, since they contribute no keys. -/
def cleanEntry (e : DirEntry) : Bool :=
  !e.isDirectory ||
    ((toUpperStr e.name).data.all isKeyChar &&
      (match e.listing with
       | some files => files.all (fun f => !endsWith f.name ".md" || cleanFile f)
       | none => true))

/-- A filesystem whose group names and accepted file stems uppercase into
the key alphabet. -/
def cleanFS (fs : FS) : Bool := fs.entries.all cleanEntry

/-- Modelled from the spec (§4.1): the filename with its extension
stripped — the last three characters `.md` removed. -/
def stripMd (file : String) : String :=
  ⟨file.data.take (file.data.length - 3)⟩

/-- Modelled from the spec (§4.1), for comparison with `codeDeriveKey`:
`UPPER(group)-OVERVIEW` when the stripped filename case-insensitively
equals `README`, else `UPPER(group)-UPPER(stem)`. -/
def specDeriveKey (group file : String) : String :=
  if toUpperStr (stripMd file) = "README" then toUpperStr group ++ "-OVERVIEW"
  else toUpperStr group ++ "-" ++ toUpperStr (stripMd file)

/-! ### Helper lemmas -/

theorem recordLookup_mem {r : Record} {k v : String}
    (h : recordLookup r k = some v) : (k, v) ∈ r := by
  induction r with
  | nil => simp [recordLookup] at h
  | cons p rest ih =>
    obtain ⟨k1, v1⟩ := p
    by_cases hk : k1 = k
    · subst hk
      simp [recordLookup] at h
      simp [h]
    · simp [recordLookup, hk] at h
      exact List.mem_cons_of_mem _ (ih h)

theorem mem_recordSet {r : Record} {k v : String} {p : String × String}
    (h : p ∈ recordSet r k v) : p ∈ r ∨ p = (k, v) := by
  unfold recordSet at h
  split at h
  · obtain ⟨q, hq, hqe⟩ := List.mem_map.1 h
    by_cases hqk : q.1 = k
    · simp [hqk] at hqe
      exact Or.inr hqe.symm
    · simp [hqk] at hqe
      exact Or.inl (hqe ▸ hq)
  · rcases List.mem_append.1 h with h1 | h1
    · exact Or.inl h1
    · simp at h1
      exact Or.inr h1

theorem shouldRescan_iff (st : CacheState) (now : Nat) :
    shouldRescan st now = true ↔
      st.rulesCache = [] ∨ now - st.lastScanTime > 5000 := by
  simp [shouldRescan, List.length_eq_zero]

theorem mem_scanFilesAcc {toolName : String} {files : List FileEntry} {acc : Record}
    {p : String × String} (h : p ∈ scanFilesAcc toolName files acc) :
    p ∈ acc ∨ ∃ f ∈ files, endsWith f.name ".md" = true ∧
      p.1 = ruleKey toolName f.name := by
  induction files generalizing acc with
  | nil => exact Or.inl h
  | cons f rest ih =>
    cases he : endsWith f.name ".md" with
    | true =>
      cases hc : f.content with
      | some content =>
        simp only [scanFilesAcc, he, hc, if_true] at h
        rcases ih h with hacc | ⟨g, hg, hgm, hke⟩
        · rcases mem_recordSet hacc with h1 | h1
          · exact Or.inl h1
          · exact Or.inr ⟨f, List.mem_cons_self _ _, he, by rw [h1]⟩
        · exact Or.inr ⟨g, List.mem_cons_of_mem _ hg, hgm, hke⟩
      | none =>
        simp only [scanFilesAcc, he, hc, if_true] at h
        exact Or.inl h
    | false =>
      simp only [scanFilesAcc, he, Bool.false_eq_true, if_false] at h
      rcases ih h with hacc | ⟨g, hg, hgm, hke⟩
      · exact Or.inl hacc
      · exact Or.inr ⟨g, List.mem_cons_of_mem _ hg, hgm, hke⟩

theorem processEntry_none {e : DirEntry} {acc : Record} (h : e.listing = none) :
    processEntry acc e = acc := by
  unfold processEntry
  rw [h]
  split <;> rfl

theorem mem_processEntry {e : DirEntry} {acc : Record} {p : String × String}
    (h : p ∈ processEntry acc e) :
    p ∈ acc ∨ (e.isDirectory = true ∧ ∃ files, e.listing = some files ∧
      ∃ f ∈ files, endsWith f.name ".md" = true ∧
        p.1 = ruleKey (toUpperStr e.name) f.name) := by
  unfold processEntry at h
  cases hdir : e.isDirectory with
  | false =>
    rw [hdir] at h
    simp only [Bool.false_eq_true, if_false] at h
    exact Or.inl h
  | true =>
    rw [hdir] at h
    simp only [if_true] at h
    cases hl : e.listing with
    | some files =>
      rw [hl] at h
      rcases mem_scanFilesAcc h with h1 | ⟨f, hf, hmd, hke⟩
      · exact Or.inl h1
      · exact Or.inr ⟨rfl, files, rfl, f, hf, hmd, hke⟩
    | none =>
      rw [hl] at h
      exact Or.inl h

theorem mem_scanEntries {entries : List DirEntry} {acc : Record} {p : String × String}
    (h : p ∈ scanEntries entries acc) :
    p ∈ acc ∨ ∃ e ∈ entries, e.isDirectory = true ∧ ∃ files, e.listing = some files ∧
      ∃ f ∈ files, endsWith f.name ".md" = true ∧
        p.1 = ruleKey (toUpperStr e.name) f.name := by
  induction entries generalizing acc with
  | nil => exact Or.inl h
  | cons e rest ih =>
    have h2 : p ∈ scanEntries rest (processEntry acc e) := h
    rcases ih h2 with h1 | ⟨e1, he1, hrest⟩
    · rcases mem_processEntry h1 with h3 | ⟨hdir, files, hl, hfs⟩
      · exact Or.inl h3
      · exact Or.inr ⟨e, List.mem_cons_self _ _, hdir, files, hl, hfs⟩
    · exact Or.inr ⟨e1, List.mem_cons_of_mem _ he1, hrest⟩

theorem mem_getProjectRules {fs : FS} {p : String × String}
    (h : p ∈ getProjectRules fs) :
    ∃ e ∈ fs.entries, e.isDirectory = true ∧ ∃ files, e.listing = some files ∧
      ∃ f ∈ files, endsWith f.name ".md" = true ∧
        p.1 = ruleKey (toUpperStr e.name) f.name := by
  unfold getProjectRules at h
  split at h
  · rcases mem_scanEntries h with h1 | h1
    · simp at h1
    · exact h1
  · simp at h

theorem dash_mem_ruleKey (t f : String) : '-' ∈ (ruleKey t f).data := by
  unfold ruleKey
  split
  · rw [String.data_append]
    exact List.mem_append_right _ (by decide)
  · rw [String.data_append, String.data_append]
    exact List.mem_append_left _ (List.mem_append_right _ (by decide))

theorem ruleKey_ne_ALL (t f : String) : ruleKey t f ≠ "ALL" := by
  intro h
  have hd := dash_mem_ruleKey t f
  rw [h] at hd
  exact absurd hd (by decide)

theorem ruleKey_valid {t f : String} (ht : t.data.all isKeyChar = true)
    (hf : (toUpperStr (removeFirst f ".md")).data.all isKeyChar = true) :
    matchesKeyRegex (ruleKey t f) = true := by
  have hne : (ruleKey t f).data ≠ [] := List.ne_nil_of_mem (dash_mem_ruleKey t f)
  have hall : (ruleKey t f).data.all isKeyChar = true := by
    unfold ruleKey
    split
    · rw [String.data_append, List.all_append, ht]
      decide
    · rw [String.data_append, String.data_append, List.all_append, List.all_append, ht, hf]
      decide
  have hmt : (ruleKey t f).data.isEmpty = false := by
    cases hdata : (ruleKey t f).data with
    | nil => exact absurd hdata hne
    | cons a as => rfl
  unfold matchesKeyRegex
  rw [hall, hmt]
  rfl

theorem scanEntries_skip_none {e : DirEntry} (he : e.listing = none)
    (pre post : List DirEntry) (acc : Record) :
    scanEntries (pre ++ e :: post) acc = scanEntries (pre ++ post) acc := by
  induction pre generalizing acc with
  | nil =>
    show scanEntries post (processEntry acc e) = scanEntries post acc
    rw [processEntry_none he]
  | cons q pre ih =>
    show scanEntries (pre ++ e :: post) (processEntry acc q) =
      scanEntries (pre ++ post) (processEntry acc q)
    exact ih _

theorem scanFilesAcc_stop_at_failure {f : FileEntry} (hf : f.content = none)
    (hmd : endsWith f.name ".md" = true)
    (t : String) (pre post : List FileEntry) (acc : Record) :
    scanFilesAcc t (pre ++ f :: post) acc = scanFilesAcc t pre acc := by
  induction pre generalizing acc with
  | nil =>
    simp [scanFilesAcc, hmd, hf]
  | cons g pre ih =>
    cases hg : endsWith g.name ".md" with
    | true =>
      cases hc : g.content with
      | some content =>
        simp only [scanFilesAcc, hg, hc, if_true]
        exact ih _
      | none =>
        simp only [scanFilesAcc, hg, hc, if_true]
    | false =>
      simp only [scanFilesAcc, hg, Bool.false_eq_true, if_false]
      exact ih _

/-! ### Claims -/

/-- C9: for every current snapshot, including the empty one, `listKeys()`
(`getAvailableRuleTypes`) returns exactly the snapshot's keys plus the
reserved literal `ALL`; in particular `ALL` is always included. -/
theorem listKeys_keys_plus_ALL (rules : Record) :
    (∀ k, k ∈ getAvailableRuleTypes rules ↔ k ∈ rules.map Prod.fst ∨ k = "ALL") ∧
    "ALL" ∈ getAvailableRuleTypes rules ∧
    getAvailableRuleTypes [] = ["ALL"] := by
  refine ⟨fun k => ?_, ?_, rfl⟩
  · simp [getAvailableRuleTypes]
  · simp [getAvailableRuleTypes]

/-- C8: `get("ALL")` is the snapshot's entries rendered as `## key`-labeled
sections in snapshot iteration order joined by the fixed delimiter, and the
section labels are exactly `listKeys()` minus `ALL`, each key appearing
exactly once (keys of a JS record are unique, and scanned keys never equal
`ALL`; both facts enter as hypotheses). -/
theorem getAll_sections (rules : Record)
    (hnd : (rules.map Prod.fst).Nodup)
    (hall : "ALL" ∉ rules.map Prod.fst) :
    getRule rules "ALL" =
      .ok (String.intercalate allDelimiter (rules.map sectionText)) ∧
    rules.map Prod.fst = (getAvailableRuleTypes rules).filter (fun k => k != "ALL") ∧
    (∀ k ∈ getAvailableRuleTypes rules, k ≠ "ALL" →
      (rules.map Prod.fst).count k = 1) := by
  refine ⟨rfl, ?_, ?_⟩
  · have h1 : (rules.map Prod.fst).filter (fun k => k != "ALL") = rules.map Prod.fst := by
      refine List.filter_eq_self.mpr fun a ha => ?_
      simp only [bne_iff_ne, ne_eq, decide_eq_true_eq]
      intro he
      exact hall (he ▸ ha)
    simp [getAvailableRuleTypes, List.filter_append, h1]
  · intro k hk hne
    have hkm : k ∈ rules.map Prod.fst := by
      rcases List.mem_append.1 hk with h1 | h1
      · exact h1
      · simp at h1
        exact absurd h1 hne
    exact List.count_eq_one_of_mem hnd hkm

/-- C8 witness at a two-entry snapshot. -/
theorem getAll_sections_witness :
    ([("GENERAL-OVERVIEW", "# O"), ("GENERAL-RULES", "# R")].map
        (Prod.fst (α := String) (β := String))).count "GENERAL-OVERVIEW" = 1 :=
  (getAll_sections [("GENERAL-OVERVIEW", "# O"), ("GENERAL-RULES", "# R")]
      (by decide) (by decide)).2.2 "GENERAL-OVERVIEW" (by decide) (by decide)

/-- C7 (amended): for `k ≠ "ALL"`, under the precondition that every
entry's content is non-empty, `get(k)` returns the entry's content when
`k` is present; when `k` is absent it fails with `Unknown rule type` only
if `k` is not a member inherited from `Object.prototype` — an absent `k`
naming such a member (`constructor`, `toString`, `__proto__`, ...) is
truthy via the prototype chain and is returned instead of failing. -/
theorem getRuleJS_single (rules : Record) (k : String) (hk : k ≠ "ALL")
    (hne : ∀ p ∈ rules, p.2 ≠ "") :
    (∀ v, recordLookup rules k = some v → getRuleJS rules k = .ok (.text v)) ∧
    (recordLookup rules k = none → objectProtoMembers.contains k = false →
      getRuleJS rules k = .error (.unknownKey k)) ∧
    (recordLookup rules k = none → objectProtoMembers.contains k = true →
      getRuleJS rules k = .ok (.leakedProto k)) := by
  refine ⟨?_, ?_, ?_⟩
  · intro v hv
    have hmem : (k, v) ∈ rules := recordLookup_mem hv
    have hv2 : v ≠ "" := hne (k, v) hmem
    simp [getRuleJS, hk, hv, hv2]
  · intro hv hp
    simp [getRuleJS, hk, hv]
    simpa using hp
  · intro hv hp
    simp [getRuleJS, hk, hv]
    simpa using hp

/-- C7 witness: a present key's content is returned, an absent non-proto
key fails, and an absent prototype member leaks through. -/
theorem getRuleJS_single_witness :
    getRuleJS [("A-B", "x")] "A-B" = .ok (.text "x") ∧
    getRuleJS [("A-B", "x")] "Z-Z" = .error (.unknownKey "Z-Z") ∧
    getRuleJS [("A-B", "x")] "toString" = .ok (.leakedProto "toString") :=
  ⟨(getRuleJS_single [("A-B", "x")] "A-B" (by decide) (by decide)).1 "x" rfl,
   (getRuleJS_single [("A-B", "x")] "Z-Z" (by decide) (by decide)).2.1 rfl (by decide),
   (getRuleJS_single [("A-B", "x")] "toString" (by decide) (by decide)).2.2 rfl (by decide)⟩

/-- C7 counterexample: `constructor` is absent from the snapshot (and is
not `ALL`, and all contents are non-empty), yet `rules['constructor']` is
a truthy member inherited from `Object.prototype`, so the handler returns
it rather than failing with `Unknown rule type`. -/
theorem getRuleJS_single_cex :
    recordLookup [("A-B", "x")] "constructor" = none ∧
    getRuleJS [("A-B", "x")] "constructor" = .ok (.leakedProto "constructor") ∧
    getRuleJS [("A-B", "x")] "constructor" ≠ .error (.unknownKey "constructor") :=
  ⟨rfl, rfl, fun h => Except.noConfusion h⟩

/-- C3 (amended): `read()` invokes the Scanner exactly when the held record
is empty (the empty record doubles as "no snapshot" and as the invalidation
flag) or its age exceeds 5000 ms; when it does not rescan it serves the
held record with the state unchanged. -/
theorem read_rescan_condition (st : CacheState) (now : Nat) (fs : FS) :
    ((getCachedProjectRules st now fs).didScan = true ↔
      st.rulesCache = [] ∨ now - st.lastScanTime > 5000) ∧
    ((getCachedProjectRules st now fs).didScan = false →
      (getCachedProjectRules st now fs).rules = st.rulesCache ∧
      (getCachedProjectRules st now fs).state = st) := by
  by_cases h : shouldRescan st now
  · constructor
    · simp [getCachedProjectRules, h]
      exact (shouldRescan_iff st now).1 h
    · intro hf
      simp [getCachedProjectRules, h] at hf
  · have hns : ¬(st.rulesCache = [] ∨ now - st.lastScanTime > 5000) :=
      fun hc => h ((shouldRescan_iff st now).2 hc)
    constructor
    · simp [getCachedProjectRules, h, hns]
    · intro _
      simp [getCachedProjectRules, h]

/-- C3 witness: a fresh non-empty snapshot is served without rescanning. -/
theorem read_rescan_condition_witness :
    (getCachedProjectRules ⟨[("A-B", "x")], 0⟩ 100 ⟨true, []⟩).rules = [("A-B", "x")] ∧
    (getCachedProjectRules ⟨[("A-B", "x")], 0⟩ 100 ⟨true, []⟩).state = ⟨[("A-B", "x")], 0⟩ :=
  (read_rescan_condition ⟨[("A-B", "x")], 0⟩ 100 ⟨true, []⟩).2 (by decide)

/-- C3 counterexample: a snapshot with zero entries and age zero (fresh and
within TTL) still triggers a rescan, where the claim says a fresh, valid
zero-entry snapshot is served without one. -/
theorem read_rescan_condition_cex :
    shouldRescan ⟨[], 1000⟩ 1000 = true ∧
    ¬ (1000 - 1000 > 5000) ∧
    (getCachedProjectRules ⟨[], 1000⟩ 1000 ⟨true, []⟩).didScan = true := by
  decide

/-- C1 (amended): when the root is missing at scan time, a `read()` that
rescans installs and returns the empty record, discarding any prior
snapshot, and never raises; the prior snapshot is served unchanged only
when no rescan triggers. -/
theorem read_rootMissing (st : CacheState) (now : Nat) (fs : FS)
    (hroot : fs.rootExists = false) :
    (shouldRescan st now = true →
      (getCachedProjectRules st now fs).rules = [] ∧
      (getCachedProjectRules st now fs).state.rulesCache = []) ∧
    (shouldRescan st now = false →
      (getCachedProjectRules st now fs).rules = st.rulesCache ∧
      (getCachedProjectRules st now fs).state = st) := by
  constructor
  · intro h
    simp [getCachedProjectRules, h, getProjectRules, hroot]
  · intro h
    simp [getCachedProjectRules, h]

/-- C1 witness at a stale state over a missing root. -/
theorem read_rootMissing_witness :
    (getCachedProjectRules ⟨[("A-B", "x")], 0⟩ 6000 ⟨false, []⟩).rules = [] ∧
    (getCachedProjectRules ⟨[("A-B", "x")], 0⟩ 6000 ⟨false, []⟩).state.rulesCache = [] :=
  (read_rootMissing ⟨[("A-B", "x")], 0⟩ 6000 ⟨false, []⟩ rfl).1 (by decide)

/-- C1 counterexample: a stale but non-empty prior snapshot together with a
missing root makes `read()` rescan and return the empty record — not the
prior snapshot unchanged, as the claim states. -/
theorem read_rootMissing_cex :
    shouldRescan ⟨[("GENERAL-OVERVIEW", "# Overview")], 0⟩ 6000 = true ∧
    (getCachedProjectRules ⟨[("GENERAL-OVERVIEW", "# Overview")], 0⟩ 6000 ⟨false, []⟩).rules = [] ∧
    (getCachedProjectRules ⟨[("GENERAL-OVERVIEW", "# Overview")], 0⟩ 6000
        ⟨false, []⟩).rules ≠ [("GENERAL-OVERVIEW", "# Overview")] := by
  decide

/-- C6: `n ≥ 1` invalidations with no intervening read leave the same state
as a single invalidation (the reset is idempotent), and the next `read()`
performs a rescan. -/
theorem invalidate_idempotent (n : Nat) (hn : 1 ≤ n) (st : CacheState)
    (now : Nat) (fs : FS) :
    invalidateN n st = invalidate st ∧
    (getCachedProjectRules (invalidateN n st) now fs).didScan = true := by
  cases n with
  | zero => exact absurd hn (by omega)
  | succ m =>
    refine ⟨rfl, ?_⟩
    have h : invalidateN (m + 1) st = ⟨[], 0⟩ := rfl
    rw [h]
    simp [getCachedProjectRules, shouldRescan]

/-- C6 witness: three invalidations behave as one. -/
theorem invalidate_idempotent_witness :
    invalidateN 3 ⟨[("A-B", "x")], 42⟩ = invalidate ⟨[("A-B", "x")], 42⟩ ∧
    (getCachedProjectRules (invalidateN 3 ⟨[("A-B", "x")], 42⟩) 100 ⟨true, []⟩).didScan = true :=
  invalidate_idempotent 3 (by decide) ⟨[("A-B", "x")], 42⟩ 100 ⟨true, []⟩

/-- C4 (amended): every key of every scan result is non-empty
unconditionally (it always contains the `-` joining group and suffix); it
matches `[A-Z0-9_-]+` provided every group directory name and every
accepted `.md` file's stem uppercase into that alphabet — arbitrary
accepted names (e.g. containing `.`) produce keys outside it. -/
theorem scan_keys_valid (fs : FS) :
    ∀ k v, (k, v) ∈ getProjectRules fs →
      k ≠ "" ∧ (cleanFS fs = true → matchesKeyRegex k = true) := by
  intro k v hmem
  obtain ⟨e, he, hdir, files, hl, f, hfmem, hmd, hkey⟩ := mem_getProjectRules hmem
  have hkey2 : k = ruleKey (toUpperStr e.name) f.name := hkey
  constructor
  · rw [hkey2]
    intro h0
    have hd := dash_mem_ruleKey (toUpperStr e.name) f.name
    rw [h0] at hd
    exact absurd hd (by decide)
  · intro hclean
    unfold cleanFS at hclean
    have hce : cleanEntry e = true := (List.all_eq_true.1 hclean) e he
    unfold cleanEntry at hce
    rw [hdir] at hce
    simp only [Bool.not_true, Bool.false_or] at hce
    rw [Bool.and_eq_true] at hce
    have ht : (toUpperStr e.name).data.all isKeyChar = true := hce.1
    have hcf : cleanFile f = true := by
      have h2 := hce.2
      rw [hl] at h2
      have h3 := (List.all_eq_true.1 h2) f hfmem
      rw [hmd] at h3
      simpa using h3
    rw [hkey2]
    exact ruleKey_valid ht hcf

/-- C4 witness: a clean filesystem's key matches the alphabet, and the
key of the dirty group `a.b` is still non-empty. -/
theorem scan_keys_valid_witness :
    matchesKeyRegex "GENERAL-OVERVIEW" = true ∧ "A.B-X" ≠ "" :=
  ⟨(scan_keys_valid ⟨true, [⟨"general", true, some [⟨"README.md", some "# O"⟩]⟩]⟩
      "GENERAL-OVERVIEW" "# O" (by decide)).2 (by decide),
   (scan_keys_valid ⟨true, [⟨"a.b", true, some [⟨"x.md", some "c"⟩]⟩]⟩
      "A.B-X" "c" (by decide)).1⟩

/-- C4 counterexample: the Scanner accepts the group directory `a.b` and
the file `x.md`, and the resulting key `A.B-X` does not match
`[A-Z0-9_-]+`. -/
theorem scan_keys_valid_cex :
    getProjectRules ⟨true, [⟨"a.b", true, some [⟨"x.md", some "c"⟩]⟩]⟩ = [("A.B-X", "c")] ∧
    matchesKeyRegex "A.B-X" = false := by
  decide

/-- C5 (amended): a failing `readdirSync` for one Group leaves the scan
result exactly as if that Group were absent (zero entries, remaining
Groups processed, scan succeeds); a failing `readFileSync` inside a Group
aborts only the rest of that Group's files, keeping the entries of the
files read before the failure — not necessarily zero entries for that
Group. -/
theorem scan_partial_failure
    (pre post : List DirEntry) (e : DirEntry)
    (t : String) (fpre fpost : List FileEntry) (f : FileEntry) (acc : Record)
    (he : e.listing = none) (hf : f.content = none)
    (hmd : endsWith f.name ".md" = true) :
    scanEntries (pre ++ e :: post) acc = scanEntries (pre ++ post) acc ∧
    scanFilesAcc t (fpre ++ f :: fpost) acc = scanFilesAcc t fpre acc :=
  ⟨scanEntries_skip_none he pre post acc,
   scanFilesAcc_stop_at_failure hf hmd t fpre fpost acc⟩

/-- C5 witness: an unlistable group is skipped entirely; a failing file
read stops that group after its earlier files. -/
theorem scan_partial_failure_witness :
    scanEntries [⟨"g", true, none⟩, ⟨"h", true, some [⟨"d.md", some "z"⟩]⟩] [] =
      scanEntries [⟨"h", true, some [⟨"d.md", some "z"⟩]⟩] [] ∧
    scanFilesAcc "G" [⟨"a.md", some "x"⟩, ⟨"b.md", none⟩, ⟨"c.md", some "y"⟩] [] =
      scanFilesAcc "G" [⟨"a.md", some "x"⟩] [] :=
  scan_partial_failure [] [⟨"h", true, some [⟨"d.md", some "z"⟩]⟩] ⟨"g", true, none⟩
    "G" [⟨"a.md", some "x"⟩] [⟨"c.md", some "y"⟩] ⟨"b.md", none⟩ [] rfl rfl (by decide)

/-- C5 counterexample: group `g` has a failing read on `b.md`, yet it
contributes the entry `G-A` read before the failure — not zero entries as
the claim states (the scan does continue with group `h`). -/
theorem scan_partial_failure_cex :
    getProjectRules ⟨true,
        [⟨"g", true, some [⟨"a.md", some "x"⟩, ⟨"b.md", none⟩, ⟨"c.md", some "y"⟩]⟩,
         ⟨"h", true, some [⟨"d.md", some "z"⟩]⟩]⟩ = [("G-A", "x"), ("H-D", "z")] := by
  decide

theorem removeFirstAux_md_append {stem : List Char} (h : '.' ∉ stem) :
    removeFirstAux ['.', 'm', 'd'] (stem ++ ['.', 'm', 'd']) = stem := by
  induction stem with
  | nil => decide
  | cons c s ih =>
    have hc : ('.' : Char) ≠ c := fun he => h (he ▸ List.mem_cons_self c s)
    have hs : '.' ∉ s := fun hm => h (List.mem_cons_of_mem _ hm)
    have hp : (['.', 'm', 'd'].isPrefixOf (c :: (s ++ ['.', 'm', 'd']))) = false := by
      simp [List.isPrefixOf, hc]
    show removeFirstAux ['.', 'm', 'd'] (c :: (s ++ ['.', 'm', 'd'])) = c :: s
    simp only [removeFirstAux, hp, Bool.false_eq_true, if_false]
    exact congrArg (c :: ·) (ih hs)

theorem removeFirst_append_md (stem : String) (hdot : '.' ∉ stem.data) :
    removeFirst (stem ++ ".md") ".md" = stem := by
  unfold removeFirst
  rw [String.data_append]
  have hd : ".md".data = ['.', 'm', 'd'] := rfl
  rw [hd, removeFirstAux_md_append hdot]

/-- C2 (amended): for a filename `stem ++ ".md"` whose stem contains no
`.`, the derived key is `UPPER(group) ++ "-OVERVIEW"` exactly when the
filename is literally `README.md` — the comparison is case-sensitive, not
case-insensitive — and `UPPER(group) ++ "-" ++ UPPER(stem)` otherwise (in
general the code removes the first occurrence of `.md` from the filename
rather than stripping the trailing extension). -/
theorem derive_key_spec (group stem : String) (hdot : '.' ∉ stem.data) :
    codeDeriveKey group (stem ++ ".md") =
      if stem ++ ".md" = "README.md" then toUpperStr group ++ "-OVERVIEW"
      else toUpperStr group ++ "-" ++ toUpperStr stem := by
  have hstem : removeFirst (stem ++ ".md") ".md" = stem :=
    removeFirst_append_md stem hdot
  unfold codeDeriveKey ruleKey
  rw [hstem]

/-- C2 witness at group `general`, file `COMMIT-MESSAGES.md`. -/
theorem derive_key_spec_witness :
    codeDeriveKey "general" ("COMMIT-MESSAGES" ++ ".md") =
      if ("COMMIT-MESSAGES" ++ ".md" : String) = "README.md"
      then toUpperStr "general" ++ "-OVERVIEW"
      else toUpperStr "general" ++ "-" ++ toUpperStr "COMMIT-MESSAGES" :=
  derive_key_spec "general" "COMMIT-MESSAGES" (by decide)

/-- C2 counterexample: `Readme.md` (stem case-insensitively `README`)
derives `GENERAL-README`, not `GENERAL-OVERVIEW` as the claim states; and
for `a.mdb.md` the code removes the first `.md` occurrence, yielding
`GENERAL-AB.MD` instead of the claim's `GENERAL-A.MDB`. -/
theorem derive_key_cex :
    codeDeriveKey "general" "Readme.md" = "GENERAL-README" ∧
    specDeriveKey "general" "Readme.md" = "GENERAL-OVERVIEW" ∧
    codeDeriveKey "general" "a.mdb.md" = "GENERAL-AB.MD" ∧
    specDeriveKey "general" "a.mdb.md" = "GENERAL-A.MDB" := by
  decide

/-- C10: presence is decided by the truthiness of `rules[ruleType]`, so a
scanned key whose content is the empty string is reported as
`Unknown rule type`, indistinguishable from a missing key. -/
theorem getRule_empty_content (fs : FS) (k : String)
    (h : recordLookup (getProjectRules fs) k = some "") :
    getRule (getProjectRules fs) k = .error (.unknownKey k) := by
  have hmem : (k, "") ∈ getProjectRules fs := recordLookup_mem h
  obtain ⟨e, _, _, files, _, f, _, _, hkey⟩ := mem_getProjectRules hmem
  have hkey2 : k = ruleKey (toUpperStr e.name) f.name := hkey
  have hk : k ≠ "ALL" := by
    rw [hkey2]
    exact ruleKey_ne_ALL _ _
  simp [getRule, hk, h]

/-- C10 witness: an empty `a.md` in group `g` yields key `G-A`, and
`get("G-A")` fails as unknown. -/
theorem getRule_empty_content_witness :
    getRule (getProjectRules ⟨true, [⟨"g", true, some [⟨"a.md", some ""⟩]⟩]⟩) "G-A" =
      .error (.unknownKey "G-A") :=
  getRule_empty_content ⟨true, [⟨"g", true, some [⟨"a.md", some ""⟩]⟩]⟩ "G-A" (by decide)

end MCP
